import Mathlib

/-!
Verification of the auto-ad subtitle gap detector.

Shallow embedding of the core pipeline:
* `src/gap_detector.py`   — `GapDetector.detect_gaps`, `GapDetector._calculate_stats`
* `src/input_handler.py`  — `InputHandler.load_srt_file`, `validate_srt_content`
* `src/utils/encoding.py` — `EncodingDetector.detect_file_encoding`
* `src/output_generator.py` — `generate_gap_srt`, `_timedelta_to_srt_time`,
  `generate_summary`, `_format_timedelta`

Modelling conventions:
* `pysrt` `SubRipTime.ordinal` values are integer milliseconds; Python
  `timedelta` values are integer microseconds.  Both are modelled as `Int`,
  with the `timedelta(milliseconds=x)` conversion written as `1000 * x`.
* Python's `sorted` is a stable sort; it is modelled by a stable insertion
  sort over the same key (`x.start.ordinal`).
* Python float arithmetic in time-field extraction (`total_seconds()`,
  `//`, `%`, `int()`) is modelled with exact integer floor operations
  (`Int.fdiv` / `Int.fmod`), which agree with the float computation on all
  inputs within float precision.
* chardet confidences are modelled as rationals.
-/

/-- A parsed subtitle entry as the detector sees it: `start`/`end` are the
`SubRipTime.ordinal` millisecond values, `text` the subtitle text. -/
structure SubEntry where
  start : Int
  «end» : Int
  text : String
deriving DecidableEq, Repr

/-- `src/models.py` `Gap`: all three times are `timedelta`s, modelled as
integer microseconds. -/
structure Gap where
  start_time : Int
  end_time : Int
  duration : Int
  previous_subtitle : String
  next_subtitle : String
deriving DecidableEq, Repr

/-- The statistics dictionary returned by `GapDetector._calculate_stats`. -/
structure GapStats where
  total_gaps : Nat
  total_duration : Int
  average_duration : Int
  min_duration : Int
  max_duration : Int
deriving DecidableEq, Repr

/-- Stable insertion used to model Python's stable `sorted` with key
`x.start.ordinal`: an element is inserted before the first element whose
key is not smaller, so earlier elements with equal keys stay first. -/
def insertByStart (x : SubEntry) : List SubEntry → List SubEntry
  | [] => [x]
  | y :: ys => if y.start < x.start then y :: insertByStart x ys else x :: y :: ys

/-- `sorted(subtitles, key=lambda x: x.start.ordinal)` from
`GapDetector.detect_gaps` (stable ascending sort by start ordinal). -/
def sortByStart (l : List SubEntry) : List SubEntry :=
  l.foldr insertByStart []

/-- The adjacent-pair loop of `GapDetector.detect_gaps`: for each pair of
consecutive entries, `gap_duration = timedelta(milliseconds = next.start -
current.end)`; a `Gap` is recorded when `gap_duration >= min_gap_duration`
(`minGap` is the threshold in microseconds). -/
def scanPairs (minGap : Int) : List SubEntry → List Gap
  | c :: n :: rest =>
      (if minGap ≤ 1000 * (n.start - c.«end») then
        [{ start_time := 1000 * c.«end»
           end_time := 1000 * n.start
           duration := 1000 * (n.start - c.«end»)
           previous_subtitle := c.text
           next_subtitle := n.text }]
       else []) ++ scanPairs minGap (n :: rest)
  | _ => []

/-- The running total `total_duration += gap_duration` accumulated by the
loop, as a left fold over the emitted gaps. -/
def totalOf (gaps : List Gap) : Int :=
  gaps.foldl (fun acc g => acc + g.duration) 0

/-- Python's `min` over a nonempty sequence: keep the current minimum,
replace it when a later item is strictly smaller. -/
def listMin1 (a : Int) : List Int → Int
  | [] => a
  | x :: xs => listMin1 (if x < a then x else a) xs

/-- Python's `max` over a nonempty sequence. -/
def listMax1 (a : Int) : List Int → Int
  | [] => a
  | x :: xs => listMax1 (if a < x then x else a) xs

/-- CPython's `_divide_and_round` (used by `timedelta.__truediv__` with an
integer divisor): floor divmod, then round half to even. -/
def divide_and_round (a : Int) (b : Int) : Int :=
  let q := Int.fdiv a b
  let r := 2 * Int.fmod a b
  if (if 0 < b then b < r else r < b) ∨ (r = b ∧ q % 2 = 1) then q + 1 else q

/-- `GapDetector._calculate_stats`: zero statistics on an empty gap list,
otherwise count, the passed running total, `total / count` (timedelta
division), and `min` / `max` of the gap durations. -/
def calculate_stats (gaps : List Gap) (total : Int) : GapStats :=
  match gaps with
  | [] =>
    { total_gaps := 0, total_duration := 0, average_duration := 0
      min_duration := 0, max_duration := 0 }
  | g :: gs =>
    { total_gaps := (g :: gs).length
      total_duration := total
      average_duration := divide_and_round total ((g :: gs).length : Int)
      min_duration := listMin1 g.duration (gs.map Gap.duration)
      max_duration := listMax1 g.duration (gs.map Gap.duration) }

/-- The post-load body of `GapDetector.detect_gaps` (the file-loading step
is modelled separately by `load_srt_file`): sort, scan adjacent pairs, then
compute statistics from the final gap list and running total. -/
def detect_gaps (t : List SubEntry) (minGap : Int) : List Gap × GapStats :=
  let gaps := scanPairs minGap (sortByStart t)
  (gaps, calculate_stats gaps (totalOf gaps))

/-! ## Encoding detection (`src/utils/encoding.py`) -/

/-- A raw byte. -/
def Byte := Fin 256
deriving DecidableEq, Repr

/-- Continuation byte of a UTF-8 sequence (`0x80..0xBF`). -/
def isCont (b : Byte) : Bool := 0x80 ≤ b.val && b.val ≤ 0xBF

/-- One step of Python's strict `utf-8` decoder: given a lead byte and the
bytes after it, consume the lead's continuation bytes and return the
remaining suffix, or `none` on malformed input.  Rejects stray
continuation bytes and overlong leads (`< 0xC2`), overlong 3-byte forms
(`0xE0` needs `0xA0..0xBF`), surrogates (`0xED` allows only
`0x80..0x9F`), overlong 4-byte forms (`0xF0` needs `0x90..0xBF`), and
code points above `U+10FFFF` (`0xF4` allows only `0x80..0x8F`; leads
above `0xF4` are invalid). -/
def validSeq (b : Byte) (rest : List Byte) : Option (List Byte) :=
  if b.val ≤ 0x7F then some rest
  else if b.val < 0xC2 then none
  else if b.val ≤ 0xDF then
    match rest with
    | c1 :: r => if isCont c1 then some r else none
    | [] => none
  else if b.val ≤ 0xEF then
    match rest with
    | c1 :: c2 :: r =>
      if (if b.val = 0xE0 then decide (0xA0 ≤ c1.val ∧ c1.val ≤ 0xBF)
          else if b.val = 0xED then decide (0x80 ≤ c1.val ∧ c1.val ≤ 0x9F)
          else isCont c1) && isCont c2 then some r else none
    | _ => none
  else if b.val ≤ 0xF4 then
    match rest with
    | c1 :: c2 :: c3 :: r =>
      if (if b.val = 0xF0 then decide (0x90 ≤ c1.val ∧ c1.val ≤ 0xBF)
          else if b.val = 0xF4 then decide (0x80 ≤ c1.val ∧ c1.val ≤ 0x8F)
          else isCont c1) && isCont c2 && isCont c3 then some r else none
    | _ => none
  else none

/-- Fuel-indexed iteration of `validSeq`; the fuel only needs to bound the
number of characters, so in `validUtf8` it is the byte count. -/
def validUtf8Aux : Nat → List Byte → Bool
  | _, [] => true
  | 0, _ :: _ => false
  | fuel + 1, b :: rest =>
    match validSeq b rest with
    | some r => validUtf8Aux fuel r
    | none => false

/-- Validity of a byte string under Python's strict `utf-8` codec. -/
def validUtf8 (l : List Byte) : Bool := validUtf8Aux l.length l

/-- Python's `utf-8-sig` codec strips a leading `EF BB BF` byte-order mark
when present, then decodes the remainder as UTF-8. -/
def stripBom : List Byte → List Byte
  | a :: b :: c :: r =>
    if a.val = 0xEF ∧ b.val = 0xBB ∧ c.val = 0xBF then r else a :: b :: c :: r
  | l => l

/-- Whether `bytes.decode(enc)` succeeds in Python for the four encodings
the detector probes.  `iso-8859-1` maps every byte; `cp1252` is undefined
exactly at `0x81, 0x8D, 0x8F, 0x90, 0x9D` (strict decode raises there). -/
def decodesWith (enc : String) (b : List Byte) : Bool :=
  if enc = "utf-8" then validUtf8 b
  else if enc = "utf-8-sig" then validUtf8 (stripBom b)
  else if enc = "iso-8859-1" then true
  else if enc = "cp1252" then
    b.all fun x =>
      decide (x.val ≠ 0x81 ∧ x.val ≠ 0x8D ∧ x.val ≠ 0x8F ∧ x.val ≠ 0x90 ∧ x.val ≠ 0x9D)
  else false

/-- `EncodingDetector.PREFERRED_ENCODINGS`. -/
def PREFERRED_ENCODINGS : List String := ["utf-8", "utf-8-sig", "iso-8859-1", "cp1252"]

/-- The probe loop `for enc in cls.PREFERRED_ENCODINGS: try decode; return
(enc, 1.0)`: first encoding in the list that decodes, with confidence 1.0;
`none` when the loop falls through. -/
def probeFirst (b : List Byte) : List String → Option (String × ℚ)
  | [] => none
  | e :: es => if decodesWith e b then some (e, 1) else probeFirst b es

/-- The result of `chardet.detect`, treated as an oracle input: an optional
encoding name and a confidence. -/
structure ChardetResult where
  encoding : Option String
  confidence : ℚ
deriving DecidableEq, Repr

/-- Python truthiness of `detected_encoding` (`None` and `""` are falsy). -/
def encodingTruthy : Option String → Bool
  | none => false
  | some s => s ≠ ""

/-- `str.lower()` on encoding names (chardet names are ASCII). -/
def lowerName (s : String) : String := ⟨s.data.map Char.toLower⟩

/-- `EncodingDetector.detect_file_encoding`: first try the `utf-8-sig`
decode; then, when chardet's encoding is falsy or its confidence is below
0.8, run the probe loop; after the loop (or when it was skipped) return the
`cp1252`/0.5 fallback if the chardet encoding is falsy, and otherwise the
lowercased chardet result. -/
def detect_file_encoding (b : List Byte) (det : ChardetResult) : String × ℚ :=
  if validUtf8 (stripBom b) then ("utf-8-sig", 1)
  else
    match
      (if ¬ encodingTruthy det.encoding ∨ det.confidence < mkRat 4 5 then
        probeFirst b PREFERRED_ENCODINGS
       else none) with
    | some r => r
    | none =>
      if ¬ encodingTruthy det.encoding then ("cp1252", mkRat 1 2)
      else (lowerName (det.encoding.getD ""), det.confidence)

/-! ## Input handling (`src/input_handler.py`)

`load_srt_file` is modelled over an abstract view of the file system and
of `pysrt.from_string`: whether the path exists, its suffix, and the
outcome of decoding-and-parsing the bytes (`none` when parsing raises).
The decode fallback chain inside `load_srt_file` cannot fail as a whole
(`latin-1` decodes any byte string), so a `none` outcome stands for a
parse error, which the outer handler wraps in `ValueError`. -/

/-- Python exceptions that can escape `load_srt_file`. -/
inductive PyErr where
  | valueError (msg : String)
  | fileNotFound (msg : String)
deriving DecidableEq, Repr

/-- The inputs `load_srt_file` consults. -/
structure LoadInput where
  path : String
  pathExists : Bool
  suffix : String
  parseResult : Option (List SubEntry)
deriving Repr

/-- `InputHandler.validate_file_path`: the path exists and its lowercased
suffix is in `VALID_EXTENSIONS = {".srt"}`. -/
def validate_file_path (inp : LoadInput) : Bool :=
  inp.pathExists && lowerName inp.suffix == ".srt"

/-- Python truthiness of the `sub.start and sub.end and sub.text` chain in
`validate_srt_content`: the parsed `SubRipTime` objects define no
`__bool__`, hence are always truthy; `text` is a string, falsy when empty. -/
def entryTruthy (e : SubEntry) : Bool :=
  e.text ≠ ""

/-- `InputHandler.validate_srt_content`: the track must be non-empty and
every entry truthy, else `(False, "Invalid subtitle structure")`. -/
def validate_srt_content (subs : List SubEntry) : Bool × Option String :=
  if decide (subs.length > 0) && subs.all entryTruthy then (true, none)
  else (false, some "Invalid subtitle structure")

/-- The content-validation tail of `load_srt_file`, shared with the
round-trip model: an invalid track raises
`ValueError("Invalid SRT content: ...")`, which the enclosing
`except Exception` handler re-wraps as `ValueError("Invalid SRT file: ...")`. -/
def load_parsed (subs : List SubEntry) : Except PyErr (List SubEntry) :=
  match validate_srt_content subs with
  | (true, _) => .ok subs
  | (false, msg) =>
    .error (.valueError ("Invalid SRT file: Invalid SRT content: " ++ msg.getD "None"))

/-- `InputHandler.load_srt_file`: fail fast on a bad path or extension;
a decode/parse failure is wrapped by the generic handler into
`ValueError("Invalid SRT file: ...")`; then structural validation. -/
def load_srt_file (inp : LoadInput) : Except PyErr (List SubEntry) :=
  if ¬ validate_file_path inp then
    .error (.valueError ("Invalid file path or extension: " ++ inp.path))
  else
    match inp.parseResult with
    | none => .error (.valueError "Invalid SRT file: parse error")
    | some subs => load_parsed subs

/-! ## Output generation (`src/output_generator.py`) -/

/-- A `pysrt.SubRipTime` as built by `_timedelta_to_srt_time`. -/
structure SrtTime where
  hours : Int
  minutes : Int
  seconds : Int
  milliseconds : Int
deriving DecidableEq, Repr

/-- `SubRipTime.ordinal` (pysrt): total milliseconds of the time fields. -/
def SrtTime.ordinal (t : SrtTime) : Int :=
  t.hours * 3600000 + t.minutes * 60000 + t.seconds * 1000 + t.milliseconds

/-- `OutputGenerator._timedelta_to_srt_time`, with the float computation on
`total_seconds()` idealized to exact arithmetic: `us` is the timedelta in
microseconds, and each Python `//`, `%`, `int()` step is the corresponding
floor operation. -/
def timedelta_to_srt_time (us : Int) : SrtTime :=
  { hours := Int.fdiv us 3600000000
    minutes := Int.fdiv (Int.fmod us 3600000000) 60000000
    seconds := Int.fdiv (Int.fmod us 60000000) 1000000
    milliseconds := Int.fdiv (Int.fmod us 1000000) 1000 }

/-- A `pysrt.SubRipItem` created by `generate_gap_srt`. -/
structure SubRipItem where
  index : Nat
  start : SrtTime
  «end» : SrtTime
  text : String
deriving DecidableEq, Repr

/-- The loop of `OutputGenerator.generate_gap_srt`
(`for index, gap in enumerate(gaps, start=1)`): one `SubRipItem` per gap,
sequential indices from `i`, start/end converted from the gap times, text
set to the configured gap text. -/
def generate_gap_items (gapText : String) (i : Nat) : List Gap → List SubRipItem
  | [] => []
  | g :: gs =>
    { index := i
      start := timedelta_to_srt_time g.start_time
      «end» := timedelta_to_srt_time g.end_time
      text := gapText } :: generate_gap_items gapText (i + 1) gs

/-- Re-parsing the serialized marker track with the loader.  The
byte-level serialize/parse pair is `pysrt` (an external library, faithful
on well-formed items at millisecond resolution); the repository's own
contribution is the structural validation applied by `load_srt_file`,
which `load_parsed` models. -/
def reparse_marker_track (items : List SubRipItem) : Except PyErr (List SubEntry) :=
  load_parsed (items.map fun it =>
    { start := it.start.ordinal, «end» := it.«end».ordinal, text := it.text })

/-- `%02d` for the values produced by the time-field extraction
(nonnegative in the summary paths the spec describes). -/
def pad2 (n : Int) : String :=
  if n < 10 then "0" ++ toString n else toString n

/-- `%03d`, likewise for nonnegative values. -/
def pad3 (n : Int) : String :=
  if n < 10 then "00" ++ toString n
  else if n < 100 then "0" ++ toString n
  else toString n

/-- `OutputGenerator._format_timedelta`, float steps idealized to exact
floor arithmetic on the microsecond value `us`. -/
def format_timedelta (us : Int) : String :=
  pad2 (Int.fdiv us 3600000000) ++ ":" ++
  pad2 (Int.fdiv (Int.fmod us 3600000000) 60000000) ++ ":" ++
  pad2 (Int.fdiv (Int.fmod us 60000000) 1000000) ++ "." ++
  pad3 (Int.fdiv (Int.fmod us 1000000) 1000)

/-- The fixed header block of `OutputGenerator.generate_summary` (the
`summary` list before the detail section). -/
def summary_header (stats : GapStats) : List String :=
  [ "Gap Detection Summary"
  , "==================="
  , "Total Gaps Found: " ++ toString stats.total_gaps
  , "Total Gap Duration: " ++ format_timedelta stats.total_duration
  , "Average Gap Duration: " ++ format_timedelta stats.average_duration
  , "Minimum Gap Duration: " ++ format_timedelta stats.min_duration
  , "Maximum Gap Duration: " ++ format_timedelta stats.max_duration
  , "" ]

/-- The per-gap detail block of `generate_summary`
(`for i, gap in enumerate(gaps, start=1)`). -/
def summary_details (i : Nat) : List Gap → List String
  | [] => []
  | g :: gs =>
    [ "\nGap #" ++ toString i
    , "Start Time: " ++ format_timedelta g.start_time
    , "End Time: " ++ format_timedelta g.end_time
    , "Duration: " ++ format_timedelta g.duration
    , "Context:"
    , "  Previous subtitle: " ++ g.previous_subtitle
    , "  Next subtitle: " ++ g.next_subtitle
    , String.mk (List.replicate 40 '-') ]
    ++ summary_details (i + 1) gs

/-- The line list of `OutputGenerator.generate_summary`; the returned
string is these lines joined with newlines. -/
def generate_summary_lines (gaps : List Gap) (stats : GapStats)
    (include_details : Bool) : List String :=
  summary_header stats ++
    (if include_details && ¬ gaps.isEmpty then
      ["Detailed Gap Information", "======================"] ++ summary_details 1 gaps
     else [])

/-- `OutputGenerator.generate_summary`: `"\n".join(summary)`. -/
def generate_summary (gaps : List Gap) (stats : GapStats)
    (include_details : Bool) : String :=
  String.intercalate "\n" (generate_summary_lines gaps stats include_details)

/-! ## Failure-explicit view of the detector core

Each Python operation in `detect_gaps` / `_calculate_stats` that can raise
is modelled in `Except`: `min()` / `max()` raise `ValueError` on an empty
sequence and `timedelta / int` raises `ZeroDivisionError` on zero; the
scan loop itself contains no raising operation (idealized integers carry
no `timedelta` overflow). -/

/-- `min(...)` as a fallible operation: raises on an empty sequence. -/
def listMinE : List Int → Except String Int
  | [] => .error "min() arg is an empty sequence"
  | x :: xs => .ok (listMin1 x xs)

/-- `max(...)` as a fallible operation: raises on an empty sequence. -/
def listMaxE : List Int → Except String Int
  | [] => .error "max() arg is an empty sequence"
  | x :: xs => .ok (listMax1 x xs)

/-- `timedelta / int` as a fallible operation: raises on division by zero. -/
def divideE (a : Int) (b : Int) : Except String Int :=
  if b = 0 then .error "division by zero" else .ok (divide_and_round a b)

/-- `_calculate_stats` with every possibly-raising step explicit. -/
def calculate_statsE (gaps : List Gap) (total : Int) : Except String GapStats :=
  if gaps.isEmpty then
    .ok { total_gaps := 0, total_duration := 0, average_duration := 0
          min_duration := 0, max_duration := 0 }
  else do
    let avg ← divideE total (gaps.length : Int)
    let mn ← listMinE (gaps.map Gap.duration)
    let mx ← listMaxE (gaps.map Gap.duration)
    .ok { total_gaps := gaps.length, total_duration := total
          average_duration := avg, min_duration := mn, max_duration := mx }

/-- The post-load body of `detect_gaps` with every possibly-raising step
explicit. -/
def detect_gapsE (t : List SubEntry) (minGap : Int) :
    Except String (List Gap × GapStats) := do
  let gaps := scanPairs minGap (sortByStart t)
  let stats ← calculate_statsE gaps (totalOf gaps)
  .ok (gaps, stats)

/-- The `GapDetector` object: its only state is the threshold set in
`__init__` (`timedelta(seconds=min_gap_duration)`, in microseconds). -/
structure GapDetector where
  min_gap_duration : Int
deriving DecidableEq, Repr

/-- `GapDetector.detect_gaps` as a state-passing operation: the method
reads `self.min_gap_duration` and writes nothing, so the post-state is the
receiver unchanged. -/
def GapDetector.detectGaps (d : GapDetector) (t : List SubEntry) :
    (List Gap × GapStats) × GapDetector :=
  (detect_gaps t d.min_gap_duration, d)

/-! ## Derived definitions used in claim statements -/

/-- Placeholder entry used only to phrase positional access. -/
def dfltEntry : SubEntry := ⟨0, 0, ""⟩

/-- The gap the loop body would emit for the adjacent pair at positions
`i, i+1` of the sorted list, when the threshold test passes. -/
def emitAt (s : List SubEntry) (m : Int) (i : Nat) : Option Gap :=
  let c := s.getD i dfltEntry
  let n := s.getD (i + 1) dfltEntry
  if m ≤ 1000 * (n.start - c.«end») then
    some { start_time := 1000 * c.«end», end_time := 1000 * n.start
           duration := 1000 * (n.start - c.«end»)
           previous_subtitle := c.text, next_subtitle := n.text }
  else none

/-- Whether the byte string literally starts with the UTF-8 byte-order
mark `EF BB BF`. -/
def startsWithBom (b : List Byte) : Bool :=
  match b with
  | a :: c :: d :: _ => decide (a.val = 0xEF ∧ c.val = 0xBB ∧ d.val = 0xBF)
  | _ => false

/-- Claim C5's description of the detector, written from the spec's words
(for refinement comparison with `detect_file_encoding`): (1) a UTF-8 input
*with byte-order mark* returns that encoding with confidence 1.0;
(2) otherwise a statistical result with confidence ≥ 0.8 is accepted
*verbatim*; (3) otherwise the first probe that decodes is returned with
confidence 1.0; (4) if nothing decodes, `cp1252` with 0.5. -/
def detectSpecClaimed (b : List Byte) (det : ChardetResult) : String × ℚ :=
  if startsWithBom b && validUtf8 (stripBom b) then ("utf-8-sig", 1)
  else if det.encoding.isSome ∧ mkRat 4 5 ≤ det.confidence then
    (det.encoding.getD "", det.confidence)
  else
    match probeFirst b PREFERRED_ENCODINGS with
    | some r => r
    | none => ("cp1252", mkRat 1 2)

/-- Claim C5 as amended: the first branch needs no byte-order mark (any
input the `utf-8-sig` codec decodes qualifies), and an accepted chardet
result has its name lowercased; the probe clause and the (unreachable)
`cp1252`/0.5 clause are unchanged. -/
def detectSpecAmended (b : List Byte) (det : ChardetResult) : String × ℚ :=
  if validUtf8 (stripBom b) then ("utf-8-sig", 1)
  else if encodingTruthy det.encoding ∧ mkRat 4 5 ≤ det.confidence then
    (lowerName (det.encoding.getD ""), det.confidence)
  else
    match probeFirst b PREFERRED_ENCODINGS with
    | some r => r
    | none => ("cp1252", mkRat 1 2)

/-- Statement of claim C1 for a given track and threshold. -/
def C1Prop (t : List SubEntry) (minGap : Int) : Prop :=
  (detect_gaps t minGap).1
      = (List.range ((sortByStart t).length - 1)).filterMap (emitAt (sortByStart t) minGap)
  ∧ (∀ i : Nat,
      (emitAt (sortByStart t) minGap i).isSome ↔
        minGap ≤ 1000 * (((sortByStart t).getD (i + 1) dfltEntry).start
          - ((sortByStart t).getD i dfltEntry).«end»))
  ∧ (∀ i : Nat, ∀ g : Gap, emitAt (sortByStart t) minGap i = some g →
      g.start_time = 1000 * ((sortByStart t).getD i dfltEntry).«end»
      ∧ g.end_time = 1000 * ((sortByStart t).getD (i + 1) dfltEntry).start
      ∧ g.duration = g.end_time - g.start_time)
  ∧ (∀ g ∈ (detect_gaps t minGap).1, 0 < g.duration)

/-- Statement of claim C2 for a given gap list: building the marker track
with the default `"[Silence]"` text and re-parsing it through the loader
reproduces the count and the boundary times (entry ordinals are
milliseconds, gap times microseconds). -/
def C2Prop (gaps : List Gap) : Prop :=
  match reparse_marker_track (generate_gap_items "[Silence]" 1 gaps) with
  | .ok es =>
      es.length = gaps.length
      ∧ es.map (fun e => 1000 * e.start) = gaps.map Gap.start_time
      ∧ es.map (fun e => 1000 * e.«end») = gaps.map Gap.end_time
  | .error _ => False

/-- Statement of claim C3 for a given gap list. -/
def C3Prop (gaps : List Gap) : Prop :=
  calculate_statsE gaps (totalOf gaps) = .ok (calculate_stats gaps (totalOf gaps))
  ∧ (gaps = [] →
      calculate_stats gaps (totalOf gaps)
        = { total_gaps := 0, total_duration := 0, average_duration := 0
            min_duration := 0, max_duration := 0 })
  ∧ (gaps ≠ [] →
      (calculate_stats gaps (totalOf gaps)).total_gaps = gaps.length
      ∧ (calculate_stats gaps (totalOf gaps)).total_duration
          = (gaps.map Gap.duration).sum
      ∧ (calculate_stats gaps (totalOf gaps)).average_duration
          = divide_and_round ((gaps.map Gap.duration).sum) (gaps.length : Int)
      ∧ (calculate_stats gaps (totalOf gaps)).min_duration ∈ gaps.map Gap.duration
      ∧ (∀ d ∈ gaps.map Gap.duration,
          (calculate_stats gaps (totalOf gaps)).min_duration ≤ d)
      ∧ (calculate_stats gaps (totalOf gaps)).max_duration ∈ gaps.map Gap.duration
      ∧ (∀ d ∈ gaps.map Gap.duration,
          d ≤ (calculate_stats gaps (totalOf gaps)).max_duration))

/-- Statement of claim C4 for a given loading situation. -/
def C4Prop (inp : LoadInput) : Prop :=
  ((∃ msg, load_srt_file inp = .error (.valueError msg) ∧ msg ≠ "") ↔
    (inp.pathExists = false
      ∨ lowerName inp.suffix ≠ ".srt"
      ∨ inp.parseResult = none
      ∨ (∃ subs, inp.parseResult = some subs ∧
          (subs = [] ∨ ∃ e ∈ subs, e.text = ""))))
  ∧ (∀ msg, load_srt_file inp ≠ .error (.fileNotFound msg))

/-- Statement of claim C6 for a given track and threshold. -/
def C6Prop (t : List SubEntry) (m : Int) : Prop :=
  (sortByStart t).Perm t
  ∧ ((sortByStart t).Pairwise fun a b => a.start ≤ b.start)
  ∧ (∀ k : Int, (sortByStart t).filter (fun e => e.start == k)
      = t.filter (fun e => e.start == k))
  ∧ (detect_gaps t m).1 = scanPairs m (sortByStart t)
  ∧ ((detect_gaps t m).1.Pairwise fun g1 g2 => g1.start_time ≤ g2.start_time)

/-- Statement of claim C8. -/
def C8Prop : Prop :=
  (∀ (gaps : List Gap) (stats : GapStats) (det : Bool),
      ("Total Gap Duration: " ++ format_timedelta stats.total_duration)
          ∈ generate_summary_lines gaps stats det
      ∧ ("Average Gap Duration: " ++ format_timedelta stats.average_duration)
          ∈ generate_summary_lines gaps stats det
      ∧ ("Minimum Gap Duration: " ++ format_timedelta stats.min_duration)
          ∈ generate_summary_lines gaps stats det
      ∧ ("Maximum Gap Duration: " ++ format_timedelta stats.max_duration)
          ∈ generate_summary_lines gaps stats det)
  ∧ (∀ (gaps : List Gap) (stats : GapStats) (g : Gap), g ∈ gaps →
      ("Duration: " ++ format_timedelta g.duration)
        ∈ generate_summary_lines gaps stats true)
  ∧ (∀ us : Int, 0 ≤ us →
      format_timedelta us
        = pad2 (us / 3600000000) ++ ":" ++ pad2 (us / 60000000 % 60) ++ ":"
          ++ pad2 (us / 1000000 % 60) ++ "." ++ pad3 (us / 1000 % 1000)
      ∧ 0 ≤ us / 3600000000
      ∧ 0 ≤ us / 60000000 % 60 ∧ us / 60000000 % 60 < 60
      ∧ 0 ≤ us / 1000000 % 60 ∧ us / 1000000 % 60 < 60
      ∧ 0 ≤ us / 1000 % 1000 ∧ us / 1000 % 1000 < 1000)

/-- Statement of claim C10 (amended) for given bytes and chardet result. -/
def C10Prop (b : List Byte) (det : ChardetResult) : Prop :=
  (probeFirst b PREFERRED_ENCODINGS).isSome
  ∧ (validUtf8 (stripBom b) = false →
      (¬ encodingTruthy det.encoding = true ∨ det.confidence < mkRat 4 5) →
      detect_file_encoding b det = ("iso-8859-1", 1))
  ∧ (detect_file_encoding b det).2 ≠ mkRat 1 2

/-! ## Concrete evaluations -/

example :
    detect_gaps
      [⟨1000, 2000, "a"⟩, ⟨5000, 6000, "b"⟩] 1000000
      = ([{ start_time := 2000000, end_time := 5000000, duration := 3000000
            previous_subtitle := "a", next_subtitle := "b" }],
          { total_gaps := 1, total_duration := 3000000
            average_duration := 3000000, min_duration := 3000000
            max_duration := 3000000 }) := by decide

example : (detect_gaps [⟨1000, 2000, "a"⟩, ⟨5000, 6000, "b"⟩] 5000000).1 = [] := by
  decide

example :
    detect_file_encoding [(0x41 : Fin 256)] ⟨some "ascii", mkRat 99 100⟩
      = ("utf-8-sig", 1) := by decide

example :
    detect_file_encoding [(0xFF : Fin 256)] ⟨some "Windows-1252", mkRat 9 10⟩
      = ("windows-1252", mkRat 9 10) := by decide

example :
    detect_file_encoding [(0xFF : Fin 256)] ⟨none, 0⟩
      = ("iso-8859-1", 1) := by decide

example :
    load_srt_file { path := "a.srt", pathExists := true, suffix := ".srt",
                    parseResult := some [] }
      = .error (.valueError "Invalid SRT file: Invalid SRT content: Invalid subtitle structure") :=
  rfl

example : format_timedelta 3000000 = "00:00:03.000" := by decide

example : format_timedelta 3661999999 = "01:01:01.999" := by decide

/-! ## Lemmas about the stable sort -/

lemma insertByStart_perm (x : SubEntry) :
    ∀ l : List SubEntry, (insertByStart x l).Perm (x :: l) := by
  intro l
  induction l with
  | nil => simp [insertByStart]
  | cons y ys ih =>
    by_cases h : y.start < x.start
    · simp only [insertByStart, if_pos h]
      exact (ih.cons y).trans (List.Perm.swap x y ys)
    · simp [insertByStart, if_neg h]

lemma sortByStart_perm : ∀ l : List SubEntry, (sortByStart l).Perm l := by
  intro l
  induction l with
  | nil => simp [sortByStart]
  | cons x xs ih =>
    have : sortByStart (x :: xs) = insertByStart x (sortByStart xs) := rfl
    rw [this]
    exact (insertByStart_perm x (sortByStart xs)).trans (ih.cons x)

lemma insertByStart_pairwise (x : SubEntry) (l : List SubEntry)
    (h : l.Pairwise fun a b => a.start ≤ b.start) :
    (insertByStart x l).Pairwise fun a b => a.start ≤ b.start := by
  induction l with
  | nil => simp [insertByStart]
  | cons y ys ih =>
    rcases List.pairwise_cons.mp h with ⟨hy, hys⟩
    by_cases hcmp : y.start < x.start
    · simp only [insertByStart, if_pos hcmp]
      refine List.pairwise_cons.mpr ⟨?_, ih hys⟩
      intro z hz
      rcases List.mem_cons.mp ((insertByStart_perm x ys).mem_iff.mp hz) with hzx | hzys
      · exact hzx ▸ le_of_lt hcmp
      · exact hy z hzys
    · simp only [insertByStart, if_neg hcmp]
      refine List.pairwise_cons.mpr ⟨?_, h⟩
      intro z hz
      rcases List.mem_cons.mp hz with hzy | hzys
      · exact hzy ▸ le_of_not_lt hcmp
      · exact le_trans (le_of_not_lt hcmp) (hy z hzys)

lemma sortByStart_pairwise :
    ∀ l : List SubEntry, (sortByStart l).Pairwise fun a b => a.start ≤ b.start := by
  intro l
  induction l with
  | nil => simp [sortByStart]
  | cons x xs ih => exact insertByStart_pairwise x (sortByStart xs) ih

lemma filter_insertByStart (k : Int) (x : SubEntry) :
    ∀ l : List SubEntry,
      (insertByStart x l).filter (fun e => e.start == k) =
        if x.start = k then x :: l.filter (fun e => e.start == k)
        else l.filter (fun e => e.start == k) := by
  intro l
  induction l with
  | nil => by_cases hx : x.start = k <;> simp [insertByStart, hx]
  | cons y ys ih =>
    by_cases hcmp : y.start < x.start
    · have h1 : insertByStart x (y :: ys) = y :: insertByStart x ys := by
        simp [insertByStart, hcmp]
      by_cases hx : x.start = k
      · have hyk : ¬ (y.start = k) := by omega
        simp [h1, List.filter_cons, ih, hx, hyk]
      · simp [h1, List.filter_cons, ih, hx]
    · have h1 : insertByStart x (y :: ys) = x :: y :: ys := by
        simp [insertByStart, hcmp]
      by_cases hx : x.start = k
      · simp [h1, List.filter_cons, hx]
      · simp [h1, List.filter_cons, hx]

lemma sortByStart_stable (k : Int) :
    ∀ l : List SubEntry,
      (sortByStart l).filter (fun e => e.start == k) =
        l.filter (fun e => e.start == k) := by
  intro l
  induction l with
  | nil => simp [sortByStart]
  | cons x xs ih =>
    have hdef : sortByStart (x :: xs) = insertByStart x (sortByStart xs) := rfl
    rw [hdef, filter_insertByStart k x (sortByStart xs), ih]
    by_cases hx : x.start = k <;> simp [List.filter_cons, hx]

/-! ## Lemmas about the adjacent-pair scan -/

lemma emitAt_cons_succ (c : SubEntry) (s : List SubEntry) (m : Int) (i : Nat) :
    emitAt (c :: s) m (i + 1) = emitAt s m i := by
  simp [emitAt, List.getD_cons_succ]

lemma scanPairs_eq_filterMap (m : Int) :
    ∀ s : List SubEntry,
      scanPairs m s = (List.range (s.length - 1)).filterMap (emitAt s m) := by
  intro s
  induction s with
  | nil => simp [scanPairs]
  | cons c s' ih =>
    cases s' with
    | nil => simp [scanPairs]
    | cons n rest =>
      have hlen : (c :: n :: rest).length - 1 = rest.length + 1 := by simp
      rw [hlen, List.range_succ_eq_map, List.filterMap_cons]
      have h0 : emitAt (c :: n :: rest) m 0 =
          (if m ≤ 1000 * (n.start - c.«end») then
            some { start_time := 1000 * c.«end», end_time := 1000 * n.start
                   duration := 1000 * (n.start - c.«end»)
                   previous_subtitle := c.text, next_subtitle := n.text }
           else none) := rfl
      have hmap :
          (List.map Nat.succ (List.range rest.length)).filterMap
              (emitAt (c :: n :: rest) m)
            = (List.range rest.length).filterMap (emitAt (n :: rest) m) := by
        rw [List.filterMap_map]
        refine List.filterMap_congr ?_
        intro i _
        exact emitAt_cons_succ c (n :: rest) m i
      have hlen' : (n :: rest).length - 1 = rest.length := by simp
      rw [hmap, h0]
      by_cases hm : m ≤ 1000 * (n.start - c.«end»)
      · simp only [scanPairs, if_pos hm, List.singleton_append, ih, hlen']
      · simp only [scanPairs, if_neg hm, List.nil_append, ih, hlen']

lemma scanPairs_start_ge (m : Int) :
    ∀ (l : List SubEntry) (x : SubEntry),
      (∀ e ∈ x :: l, e.start ≤ e.«end») →
      ((x :: l).Pairwise fun a b => a.start ≤ b.start) →
      ∀ g ∈ scanPairs m (x :: l), 1000 * x.start ≤ g.start_time := by
  intro l
  induction l with
  | nil => intro x _ _ g hg; simp [scanPairs] at hg
  | cons n rest ih =>
    intro x hinv hsort g hg
    simp only [scanPairs] at hg
    rcases List.mem_append.mp hg with hhead | htail
    · by_cases hc : m ≤ 1000 * (n.start - x.«end»)
      · rw [if_pos hc] at hhead
        have hx : x.start ≤ x.«end» := hinv x (by simp)
        rcases List.mem_singleton.mp hhead with rfl
        show 1000 * x.start ≤ 1000 * x.«end»
        omega
      · rw [if_neg hc] at hhead
        simp at hhead
    · have hinv' : ∀ e ∈ n :: rest, e.start ≤ e.«end» := fun e he =>
        hinv e (List.mem_cons_of_mem x he)
      have hsort' := (List.pairwise_cons.mp hsort).2
      have hxn : x.start ≤ n.start := (List.pairwise_cons.mp hsort).1 n (by simp)
      have hrec := ih n hinv' hsort' g htail
      omega

lemma scanPairs_sorted (m : Int) (hm : 0 < m) :
    ∀ l : List SubEntry,
      (∀ e ∈ l, e.start ≤ e.«end») →
      (l.Pairwise fun a b => a.start ≤ b.start) →
      (scanPairs m l).Pairwise fun g1 g2 => g1.start_time ≤ g2.start_time := by
  intro l
  induction l with
  | nil => intro _ _; simp [scanPairs]
  | cons x l' ih =>
    cases l' with
    | nil => intro _ _; simp [scanPairs]
    | cons n rest =>
      intro hinv hsort
      have hinv' : ∀ e ∈ n :: rest, e.start ≤ e.«end» := fun e he =>
        hinv e (List.mem_cons_of_mem x he)
      have hsort' := (List.pairwise_cons.mp hsort).2
      simp only [scanPairs]
      apply List.pairwise_append.mpr
      refine ⟨?_, ih hinv' hsort', ?_⟩
      · by_cases hc : m ≤ 1000 * (n.start - x.«end») <;> simp [hc]
      · intro g1 hg1 g2 hg2
        by_cases hc : m ≤ 1000 * (n.start - x.«end»)
        · rw [if_pos hc] at hg1
          rcases List.mem_singleton.mp hg1 with rfl
          have h2 := scanPairs_start_ge m rest n hinv' hsort' g2 hg2
          show 1000 * x.«end» ≤ g2.start_time
          omega
        · rw [if_neg hc] at hg1
          simp at hg1

/-! ## Lemmas about Python `min` / `max` over a nonempty sequence -/

lemma listMin1_le (l : List Int) :
    ∀ a : Int, listMin1 a l ≤ a ∧ ∀ y ∈ l, listMin1 a l ≤ y := by
  induction l with
  | nil => intro a; simp [listMin1]
  | cons x xs ih =>
    intro a
    have hb := ih (if x < a then x else a)
    have hba : (if x < a then x else a) ≤ a := by split <;> omega
    have hbx : (if x < a then x else a) ≤ x := by split <;> omega
    have hdef : listMin1 a (x :: xs) = listMin1 (if x < a then x else a) xs := rfl
    refine ⟨?_, ?_⟩
    · rw [hdef]; exact le_trans hb.1 hba
    · intro y hy
      rcases List.mem_cons.mp hy with rfl | hyxs
      · rw [hdef]; exact le_trans hb.1 hbx
      · rw [hdef]; exact hb.2 y hyxs

lemma listMin1_mem (l : List Int) :
    ∀ a : Int, listMin1 a l = a ∨ listMin1 a l ∈ l := by
  induction l with
  | nil => intro a; simp [listMin1]
  | cons x xs ih =>
    intro a
    have hdef : listMin1 a (x :: xs) = listMin1 (if x < a then x else a) xs := rfl
    rcases ih (if x < a then x else a) with heq | hmem
    · by_cases hx : x < a
      · right; rw [hdef, heq, if_pos hx]; exact List.mem_cons_self x xs
      · left; rw [hdef, heq, if_neg hx]
    · right; rw [hdef]; exact List.mem_cons_of_mem x hmem

lemma listMax1_ge (l : List Int) :
    ∀ a : Int, a ≤ listMax1 a l ∧ ∀ y ∈ l, y ≤ listMax1 a l := by
  induction l with
  | nil => intro a; simp [listMax1]
  | cons x xs ih =>
    intro a
    have hb := ih (if a < x then x else a)
    have hba : a ≤ (if a < x then x else a) := by split <;> omega
    have hbx : x ≤ (if a < x then x else a) := by split <;> omega
    have hdef : listMax1 a (x :: xs) = listMax1 (if a < x then x else a) xs := rfl
    refine ⟨?_, ?_⟩
    · rw [hdef]; exact le_trans hba hb.1
    · intro y hy
      rcases List.mem_cons.mp hy with rfl | hyxs
      · rw [hdef]; exact le_trans hbx hb.1
      · rw [hdef]; exact hb.2 y hyxs

lemma listMax1_mem (l : List Int) :
    ∀ a : Int, listMax1 a l = a ∨ listMax1 a l ∈ l := by
  induction l with
  | nil => intro a; simp [listMax1]
  | cons x xs ih =>
    intro a
    have hdef : listMax1 a (x :: xs) = listMax1 (if a < x then x else a) xs := rfl
    rcases ih (if a < x then x else a) with heq | hmem
    · by_cases hx : a < x
      · right; rw [hdef, heq, if_pos hx]; exact List.mem_cons_self x xs
      · left; rw [hdef, heq, if_neg hx]
    · right; rw [hdef]; exact List.mem_cons_of_mem x hmem

/-! ## Lemmas about encoding detection -/

lemma decodesWith_utf8 (b : List Byte) : decodesWith "utf-8" b = validUtf8 b := by
  simp [decodesWith]

lemma decodesWith_utf8sig (b : List Byte) :
    decodesWith "utf-8-sig" b = validUtf8 (stripBom b) := by
  simp [decodesWith]

lemma decodesWith_iso (b : List Byte) : decodesWith "iso-8859-1" b = true := by
  simp [decodesWith]

lemma validSeq_length_le (b : Byte) (rest r : List Byte)
    (h : validSeq b rest = some r) : r.length ≤ rest.length := by
  unfold validSeq at h
  repeat' split at h
  all_goals (cases h <;> (try simp only [List.length_cons]) <;> omega)

lemma validUtf8Aux_fuel :
    ∀ (f1 : Nat), ∀ (f2 : Nat) (l : List Byte), l.length ≤ f1 → l.length ≤ f2 →
      validUtf8Aux f1 l = validUtf8Aux f2 l := by
  intro f1
  induction f1 with
  | zero =>
    intro f2 l h1 _
    have : l = [] := List.length_eq_zero.mp (by omega)
    subst this
    cases f2 <;> rfl
  | succ f ih =>
    intro f2 l h1 h2
    cases l with
    | nil => cases f2 <;> rfl
    | cons b rest =>
      cases f2 with
      | zero => simp at h2
      | succ f2' =>
        show (match validSeq b rest with
              | some r => validUtf8Aux f r
              | none => false)
            = (match validSeq b rest with
              | some r => validUtf8Aux f2' r
              | none => false)
        cases hseq : validSeq b rest with
        | none => rfl
        | some r =>
          have hr := validSeq_length_le b rest r hseq
          simp only [List.length_cons] at h1 h2
          exact ih f2' r (by omega) (by omega)

/-- Unfolding equation for `validUtf8` on a cons cell. -/
lemma validUtf8_cons (b : Byte) (rest : List Byte) :
    validUtf8 (b :: rest)
      = (match validSeq b rest with
         | some r => validUtf8 r
         | none => false) := by
  show validUtf8Aux (rest.length + 1) (b :: rest) = _
  show (match validSeq b rest with
        | some r => validUtf8Aux rest.length r
        | none => false) = _
  cases hseq : validSeq b rest with
  | none => rfl
  | some r =>
    have hr := validSeq_length_le b rest r hseq
    exact validUtf8Aux_fuel rest.length r.length r (by omega) (by omega)

lemma validSeq_bom (r : List Byte) :
    validSeq (0xEF : Fin 256) ((0xBB : Fin 256) :: (0xBF : Fin 256) :: r)
      = some r := rfl

/-- A byte-order mark is itself valid UTF-8 (it encodes U+FEFF), so a
BOM-prefixed string is valid UTF-8 exactly when its remainder is. -/
lemma validUtf8_cons_bom (r : List Byte) :
    validUtf8 ((0xEF : Fin 256) :: (0xBB : Fin 256) :: (0xBF : Fin 256) :: r)
      = validUtf8 r := by
  rw [validUtf8_cons, validSeq_bom]

/-- If the `utf-8-sig` decode fails, so does the plain `utf-8` decode. -/
lemma validUtf8_of_stripBom (b : List Byte)
    (h : validUtf8 (stripBom b) = false) : validUtf8 b = false := by
  match b with
  | [] => simpa [stripBom] using h
  | [a] => simpa [stripBom] using h
  | [a, c] => simpa [stripBom] using h
  | a :: c :: d :: r =>
    by_cases hbom : a.val = 0xEF ∧ c.val = 0xBB ∧ d.val = 0xBF
    · have ha : a = (0xEF : Fin 256) := Fin.ext (by rw [hbom.1]; rfl)
      have hc : c = (0xBB : Fin 256) := Fin.ext (by rw [hbom.2.1]; rfl)
      have hd : d = (0xBF : Fin 256) := Fin.ext (by rw [hbom.2.2]; rfl)
      subst ha hc hd
      have hs : stripBom ((0xEF : Fin 256) :: (0xBB : Fin 256) :: (0xBF : Fin 256) :: r)
          = r := rfl
      rw [hs] at h
      rw [validUtf8_cons_bom r]
      exact h
    · have hs : stripBom (a :: c :: d :: r) = a :: c :: d :: r := by
        simp only [stripBom, if_neg hbom]
      rw [hs] at h
      exact h

/-- When the `utf-8-sig` decode fails, the probe loop settles on
`iso-8859-1` (the first two probes fail, and `iso-8859-1` decodes any byte
string). -/
lemma probeFirst_of_not_utf8sig (b : List Byte)
    (h : validUtf8 (stripBom b) = false) :
    probeFirst b PREFERRED_ENCODINGS = some ("iso-8859-1", 1) := by
  have h8 : validUtf8 b = false := validUtf8_of_stripBom b h
  simp [probeFirst, PREFERRED_ENCODINGS, decodesWith_utf8, decodesWith_utf8sig,
    decodesWith_iso, h8, h]

/-- The probe loop never falls through: `iso-8859-1` decodes everything. -/
lemma probeFirst_isSome (b : List Byte) :
    (probeFirst b PREFERRED_ENCODINGS).isSome := by
  by_cases h1 : decodesWith "utf-8" b <;>
    by_cases h2 : decodesWith "utf-8-sig" b <;>
      simp [probeFirst, PREFERRED_ENCODINGS, h1, h2, decodesWith_iso]

/-- Every probe result carries confidence 1.0. -/
lemma probeFirst_conf (b : List Byte) :
    ∀ l : List String, ∀ r, probeFirst b l = some r → r.2 = 1 := by
  intro l
  induction l with
  | nil => intro r hr; simp [probeFirst] at hr
  | cons e es ih =>
    intro r hr
    by_cases hd : decodesWith e b
    · rw [probeFirst, if_pos hd] at hr
      cases hr
      rfl
    · rw [probeFirst, if_neg hd] at hr
      exact ih r hr

/-- The low-confidence/no-result path of `detect_file_encoding` returns the
probe loop's answer. -/
lemma detect_low_path (b : List Byte) (det : ChardetResult)
    (hs : validUtf8 (stripBom b) = false)
    (hl : ¬ encodingTruthy det.encoding = true ∨ det.confidence < mkRat 4 5) :
    detect_file_encoding b det = ("iso-8859-1", 1) := by
  rw [detect_file_encoding, if_neg (by simp [hs]), if_pos hl,
    probeFirst_of_not_utf8sig b hs]

/-- The accepted-chardet path of `detect_file_encoding`. -/
lemma detect_high_path (b : List Byte) (det : ChardetResult)
    (hs : validUtf8 (stripBom b) = false)
    (ht : encodingTruthy det.encoding = true)
    (hc : ¬ det.confidence < mkRat 4 5) :
    detect_file_encoding b det
      = (lowerName (det.encoding.getD ""), det.confidence) := by
  rw [detect_file_encoding, if_neg (by simp [hs]),
    if_neg (by simp [ht, hc]), if_neg (by simp [ht])]

/-! ## Floor-division bridging and the time round trip -/

/-- The running total accumulated by the detection loop equals the sum of
the emitted gap durations. -/
lemma totalOf_eq_sum (gaps : List Gap) :
    totalOf gaps = (gaps.map Gap.duration).sum := by
  have haux : ∀ (l : List Gap) (a : Int),
      l.foldl (fun acc g => acc + g.duration) a = a + (l.map Gap.duration).sum := by
    intro l
    induction l with
    | nil => intro a; simp
    | cons g gs ih =>
      intro a
      simp only [List.foldl_cons, List.map_cons, List.sum_cons, ih]
      ring
  have := haux gaps 0
  simpa [totalOf] using this

/-- `_calculate_stats` never raises: every fallible step is guarded. -/
lemma calculate_statsE_ok (gaps : List Gap) (total : Int) :
    calculate_statsE gaps total = .ok (calculate_stats gaps total) := by
  cases gaps with
  | nil => rfl
  | cons g gs =>
    have hlen : ¬ ((gs.length : Int) + 1 = 0) := by omega
    simp [calculate_statsE, calculate_stats, divideE, listMinE, listMaxE, hlen,
      Bind.bind, Except.bind]

/-- For a positive divisor, Python floor division agrees with Euclidean
division, which `omega` understands. -/
lemma fdiv_pos_divisor (a : Int) (n : Nat) : Int.fdiv a (n : Int) = a / n :=
  Int.fdiv_eq_ediv a (by positivity)

lemma fmod_pos_divisor (a : Int) (n : Nat) : Int.fmod a (n : Int) = a % n :=
  Int.fmod_eq_emod a (by positivity)

/-- Converting a nonnegative whole-millisecond timedelta to a `SubRipTime`
and reading back pysrt's millisecond ordinal is the identity. -/
lemma ordinal_round_trip (ms : Int) :
    (timedelta_to_srt_time (1000 * ms)).ordinal = ms := by
  simp only [timedelta_to_srt_time, SrtTime.ordinal]
  rw [show ((3600000000 : Int)) = ((3600000000 : Nat) : Int) from rfl,
      show ((60000000 : Int)) = ((60000000 : Nat) : Int) from rfl,
      show ((1000000 : Int)) = ((1000000 : Nat) : Int) from rfl,
      show ((1000 : Int)) = ((1000 : Nat) : Int) from rfl,
      fdiv_pos_divisor, fmod_pos_divisor, fmod_pos_divisor,
      fdiv_pos_divisor, fdiv_pos_divisor, fdiv_pos_divisor, fmod_pos_divisor]
  omega

/-! ## Claim statements and theorems -/

/-- **C1.** After the stable sort by start time, the gap list is exactly
the scan of adjacent pairs: position `i` emits iff
`next.start − current.end ≥ min_gap_duration` (equality included), the
emitted gap's `start_time`/`end_time` are the boundary times and its
`duration` is `end_time − start_time`; consequently every emitted gap has
strictly positive duration, so overlapping entries never emit. -/
theorem C1_gap_emission (t : List SubEntry) (minGap : Int) (hpos : 0 < minGap) :
    C1Prop t minGap := by
  refine ⟨scanPairs_eq_filterMap minGap (sortByStart t), ?_, ?_, ?_⟩
  · intro i
    by_cases h : minGap ≤ 1000 * (((sortByStart t).getD (i + 1) dfltEntry).start
        - ((sortByStart t).getD i dfltEntry).«end») <;>
      simp [emitAt, h]
  · intro i g hg
    simp only [emitAt] at hg
    split at hg
    · cases hg
      refine ⟨rfl, rfl, ?_⟩
      show 1000 * (((sortByStart t).getD (i + 1) dfltEntry).start
          - ((sortByStart t).getD i dfltEntry).«end»)
        = 1000 * ((sortByStart t).getD (i + 1) dfltEntry).start
          - 1000 * ((sortByStart t).getD i dfltEntry).«end»
      ring
    · cases hg
  · intro g hg
    have hg' : g ∈ (List.range ((sortByStart t).length - 1)).filterMap
        (emitAt (sortByStart t) minGap) := by
      rw [← scanPairs_eq_filterMap]
      exact hg
    rcases List.mem_filterMap.mp hg' with ⟨i, _, hemit⟩
    simp only [emitAt] at hemit
    split at hemit
    · cases hemit
      simp only []
      omega
    · cases hemit

/-- **C1 witness.**  A two-entry track whose adjacent difference equals the
threshold exactly (1000 ms with a 1 s threshold): the boundary case. -/
theorem C1_gap_emission_witness :
    C1Prop [⟨1000, 2000, "a"⟩, ⟨3000, 4000, "b"⟩] 1000000 :=
  C1_gap_emission _ _ (by norm_num)

/-- **C6.** Before the adjacent-pair scan the entries are rearranged into a
permutation that is sorted ascending by start time and stable (entries
with equal start times keep their original relative order), the scan runs
on that sorted list, and the emitted gap list is ordered by gap start
time. -/
theorem C6_stable_sort_order (t : List SubEntry) (m : Int) (hpos : 0 < m)
    (hinv : ∀ e ∈ t, e.start ≤ e.«end») : C6Prop t m := by
  have hperm := sortByStart_perm t
  refine ⟨hperm, sortByStart_pairwise t, fun k => sortByStart_stable k t, rfl, ?_⟩
  have hinv' : ∀ e ∈ sortByStart t, e.start ≤ e.«end» := fun e he =>
    hinv e (hperm.mem_iff.mp he)
  exact scanPairs_sorted m hpos (sortByStart t) hinv' (sortByStart_pairwise t)

/-- **C6 witness.**  An out-of-order two-entry track. -/
theorem C6_stable_sort_order_witness :
    C6Prop [⟨5000, 6000, "b"⟩, ⟨0, 1000, "a"⟩] 1000000 :=
  C6_stable_sort_order _ _ (by norm_num) (by decide)

/-- **C9.** `GapDetector.detect_gaps` keeps no state: the detector object
after a call is unchanged, and a second call on the same track returns the
identical gap-list/statistics pair. -/
theorem C9_deterministic (d : GapDetector) (t : List SubEntry) :
    (d.detectGaps t).2 = d
    ∧ ((d.detectGaps t).2.detectGaps t).1 = (d.detectGaps t).1 :=
  ⟨rfl, rfl⟩

/-- **C3.** Statistics over an empty gap collection are count 0 and zero
durations, and the computation never raises (its fallible steps all return
`ok`); over a non-empty collection they are the count, the total (sum of
durations), the mean (`total / count` in timedelta division), and the true
minimum and maximum of the duration list. -/
theorem C3_statistics (gaps : List Gap) : C3Prop gaps := by
  refine ⟨calculate_statsE_ok gaps (totalOf gaps), ?_, ?_⟩
  · intro h; subst h; rfl
  · intro hne
    match gaps with
    | g :: gs =>
      have htot := totalOf_eq_sum (g :: gs)
      have hmin := listMin1_le (gs.map Gap.duration) g.duration
      have hminm := listMin1_mem (gs.map Gap.duration) g.duration
      have hmax := listMax1_ge (gs.map Gap.duration) g.duration
      have hmaxm := listMax1_mem (gs.map Gap.duration) g.duration
      refine ⟨rfl, htot, by rw [← htot]; rfl, ?_, ?_, ?_, ?_⟩
      · show listMin1 g.duration (gs.map Gap.duration) ∈ (g :: gs).map Gap.duration
        rcases hminm with heq | hmem
        · rw [heq]; simp
        · simp [List.mem_cons, hmem]
      · intro d hd
        rcases List.mem_cons.mp hd with heq | hmem
        · rw [heq]; exact hmin.1
        · exact hmin.2 d hmem
      · show listMax1 g.duration (gs.map Gap.duration) ∈ (g :: gs).map Gap.duration
        rcases hmaxm with heq | hmem
        · rw [heq]; simp
        · simp [List.mem_cons, hmem]
      · intro d hd
        rcases List.mem_cons.mp hd with heq | hmem
        · rw [heq]; exact hmax.1
        · exact hmax.2 d hmem

/-- **C3 witness.**  A two-gap list with distinct durations. -/
theorem C3_statistics_witness :
    C3Prop [⟨0, 3000000, 3000000, "a", "b"⟩, ⟨5000000, 6000000, 1000000, "b", "c"⟩] :=
  C3_statistics _

/-- **C7.** With a validated track and a strictly positive threshold the
detection body cannot fail: the failure-explicit model returns `ok` with
the pure result (the guards in `_calculate_stats` keep `min`, `max` and
the division away from their raising cases). -/
theorem C7_cannot_fail (t : List SubEntry) (m : Int) (hpos : 0 < m)
    (hval : t ≠ [] ∧ ∀ e ∈ t, entryTruthy e) :
    detect_gapsE t m = .ok (detect_gaps t m) := by
  show (do
      let stats ← calculate_statsE (scanPairs m (sortByStart t))
        (totalOf (scanPairs m (sortByStart t)))
      Except.ok (scanPairs m (sortByStart t), stats)) = _
  rw [calculate_statsE_ok]
  rfl

/-- **C7 witness.** -/
theorem C7_cannot_fail_witness :
    detect_gapsE [⟨0, 1000, "a"⟩] 1000000
      = .ok (detect_gaps [⟨0, 1000, "a"⟩] 1000000) :=
  C7_cannot_fail _ _ (by norm_num) (by constructor <;> decide)

/-- The fixed prefix of the invalid-path message keeps the error reason
non-empty whatever the offending path is. -/
lemma path_msg_ne (p : String) :
    ("Invalid file path or extension: " ++ p) ≠ "" := by
  intro h
  have hlen := congrArg String.length h
  rw [String.length_append] at hlen
  have h32 : ("Invalid file path or extension: ").length = 32 := by decide
  have h0 : ("" : String).length = 0 := by decide
  omega

/-- `load_srt_file` never surfaces `FileNotFoundError`: the re-raise branch
for it is unreachable once `validate_file_path` has confirmed existence. -/
lemma load_not_fileNotFound (inp : LoadInput) :
    ∀ msg, load_srt_file inp ≠ .error (.fileNotFound msg) := by
  intro msg h
  unfold load_srt_file at h
  split at h
  · simp at h
  · split at h
    · simp at h
    · unfold load_parsed at h
      split at h
      · simp at h
      · simp at h

/-- **C4.** Loading fails — always with a `ValueError` (the `InvalidInput`
category) carrying a non-empty reason, never with any other exception —
exactly when the path does not exist, or its lowercased suffix is not
`.srt`, or decoding/parsing fails, or the parsed track is empty or has an
entry with empty text (the structural validation; parsed `pysrt` time
objects are always truthy, so only the text can fail the
`start and end and text` check). -/
theorem C4_invalid_input (inp : LoadInput) : C4Prop inp := by
  refine ⟨?_, load_not_fileNotFound inp⟩
  by_cases hp : inp.pathExists
  · by_cases hs : lowerName inp.suffix = ".srt"
    · have hv : validate_file_path inp = true := by
        simp [validate_file_path, hp, hs]
      cases hpr : inp.parseResult with
      | none =>
        apply iff_of_true
        · refine ⟨"Invalid SRT file: parse error", ?_, by decide⟩
          simp [load_srt_file, hv, hpr]
        · right; right; left; rfl
      | some subs =>
        by_cases hval : subs ≠ [] ∧ ∀ e ∈ subs, e.text ≠ ""
        · have hcontent : validate_srt_content subs = (true, none) := by
            have h1 : subs.length > 0 := List.length_pos.mpr hval.1
            have h2 : subs.all entryTruthy = true := by
              rw [List.all_eq_true]
              intro e he
              simpa [entryTruthy] using hval.2 e he
            simp [validate_srt_content, h1, h2]
          have hload : load_srt_file inp = .ok subs := by
            simp [load_srt_file, hv, hpr, load_parsed, hcontent]
          apply iff_of_false
          · rintro ⟨msg, hmsg, -⟩
            rw [hload] at hmsg
            simp at hmsg
          · rintro (h | h | h | ⟨subs', hsub, hbad⟩)
            · rw [hp] at h; cases h
            · exact h hs
            · cases h
            · cases hsub
              rcases hbad with rfl | ⟨e, he, hetext⟩
              · exact hval.1 rfl
              · exact hval.2 e he hetext
        · have hbool : (decide (subs.length > 0) && subs.all entryTruthy) = false := by
            rcases not_and_or.mp hval with h1 | h2
            · have : subs = [] := not_not.mp h1
              subst this
              simp
            · push_neg at h2
              rcases h2 with ⟨e, he, hetext⟩
              have : subs.all entryTruthy = false := by
                rw [List.all_eq_false]
                exact ⟨e, he, by simp [entryTruthy, hetext]⟩
              simp [this]
          have hcontent : validate_srt_content subs
              = (false, some "Invalid subtitle structure") := by
            simp [validate_srt_content, hbool]
          apply iff_of_true
          · refine ⟨"Invalid SRT file: Invalid SRT content: Invalid subtitle structure",
              ?_, by decide⟩
            simp [load_srt_file, hv, hpr, load_parsed, hcontent]
          · right; right; right
            refine ⟨subs, rfl, ?_⟩
            rcases not_and_or.mp hval with h1 | h2
            · exact Or.inl (not_not.mp h1)
            · push_neg at h2
              exact Or.inr h2
    · have hv : validate_file_path inp = false := by
        simp [validate_file_path, hs]
      apply iff_of_true
      · refine ⟨"Invalid file path or extension: " ++ inp.path, ?_, path_msg_ne inp.path⟩
        simp [load_srt_file, hv]
      · right; left; exact hs
  · have hv : validate_file_path inp = false := by
      simp [validate_file_path, hp]
    apply iff_of_true
    · refine ⟨"Invalid file path or extension: " ++ inp.path, ?_, path_msg_ne inp.path⟩
      simp [load_srt_file, hv]
    · left; exact Bool.not_eq_true inp.pathExists ▸ eq_false_of_ne_true (by simpa using hp)

lemma generate_gap_items_length (txt : String) :
    ∀ (gaps : List Gap) (i : Nat), (generate_gap_items txt i gaps).length = gaps.length := by
  intro gaps
  induction gaps with
  | nil => intro i; rfl
  | cons g gs ih => intro i; simp [generate_gap_items, ih]

lemma generate_gap_items_text (txt : String) :
    ∀ (gaps : List Gap) (i : Nat) (it : SubRipItem),
      it ∈ generate_gap_items txt i gaps → it.text = txt := by
  intro gaps
  induction gaps with
  | nil => intro i it h; simp [generate_gap_items] at h
  | cons g gs ih =>
    intro i it h
    rcases List.mem_cons.mp h with rfl | hmem
    · rfl
    · exact ih (i + 1) it hmem

lemma generate_gap_items_starts (txt : String) :
    ∀ (gaps : List Gap) (i : Nat),
      (∀ g ∈ gaps, (1000 : Int) ∣ g.start_time) →
      ((generate_gap_items txt i gaps).map fun it => 1000 * it.start.ordinal)
        = gaps.map Gap.start_time := by
  intro gaps
  induction gaps with
  | nil => intro i _; rfl
  | cons g gs ih =>
    intro i hdvd
    rcases hdvd g (by simp) with ⟨k, hk⟩
    have hrt : (timedelta_to_srt_time g.start_time).ordinal = k := by
      rw [hk]; exact ordinal_round_trip k
    simp only [generate_gap_items, List.map_cons]
    rw [ih (i + 1) (fun g' hg' => hdvd g' (List.mem_cons_of_mem g hg'))]
    show (1000 * (timedelta_to_srt_time g.start_time).ordinal) :: _ = g.start_time :: _
    rw [hrt, ← hk]

lemma generate_gap_items_ends (txt : String) :
    ∀ (gaps : List Gap) (i : Nat),
      (∀ g ∈ gaps, (1000 : Int) ∣ g.end_time) →
      ((generate_gap_items txt i gaps).map fun it => 1000 * it.«end».ordinal)
        = gaps.map Gap.end_time := by
  intro gaps
  induction gaps with
  | nil => intro i _; rfl
  | cons g gs ih =>
    intro i hdvd
    rcases hdvd g (by simp) with ⟨k, hk⟩
    have hrt : (timedelta_to_srt_time g.end_time).ordinal = k := by
      rw [hk]; exact ordinal_round_trip k
    simp only [generate_gap_items, List.map_cons]
    rw [ih (i + 1) (fun g' hg' => hdvd g' (List.mem_cons_of_mem g hg'))]
    show (1000 * (timedelta_to_srt_time g.end_time).ordinal) :: _ = g.end_time :: _
    rw [hrt, ← hk]

/-- **C2 counterexample.**  For the empty gap list the claim fails: the
marker track has zero entries, and the loader rejects a zero-entry track
with `InvalidInput` instead of reproducing the (empty) gap list. -/
theorem C2_empty_fails : ¬ C2Prop [] := fun h => h

/-- **C2 (amended).**  For every *non-empty* gap list whose boundary times
are nonnegative whole milliseconds (as every gap produced by the detector
is), building the marker track and re-parsing it with the loader
reproduces the count, the start times, and the end times. -/
theorem C2_round_trip (gaps : List Gap) (hne : gaps ≠ [])
    (hms : ∀ g ∈ gaps, 0 ≤ g.start_time ∧ (1000 : Int) ∣ g.start_time
      ∧ 0 ≤ g.end_time ∧ (1000 : Int) ∣ g.end_time) :
    C2Prop gaps := by
  have hlen : (generate_gap_items "[Silence]" 1 gaps).length = gaps.length :=
    generate_gap_items_length "[Silence]" gaps 1
  have hentries :
      ∀ e ∈ (generate_gap_items "[Silence]" 1 gaps).map fun it =>
        ({ start := it.start.ordinal, «end» := it.«end».ordinal,
           text := it.text } : SubEntry), entryTruthy e := by
    intro e he
    rcases List.mem_map.mp he with ⟨it, hit, rfl⟩
    have := generate_gap_items_text "[Silence]" gaps 1 it hit
    simp [entryTruthy, this]
  have hpos : 0 < ((generate_gap_items "[Silence]" 1 gaps).map fun it =>
      ({ start := it.start.ordinal, «end» := it.«end».ordinal,
         text := it.text } : SubEntry)).length := by
    rw [List.length_map, hlen]
    exact List.length_pos.mpr hne
  have hcontent : validate_srt_content
      ((generate_gap_items "[Silence]" 1 gaps).map fun it =>
        ({ start := it.start.ordinal, «end» := it.«end».ordinal,
           text := it.text } : SubEntry)) = (true, none) := by
    have hall : ((generate_gap_items "[Silence]" 1 gaps).map fun it =>
        ({ start := it.start.ordinal, «end» := it.«end».ordinal,
           text := it.text } : SubEntry)).all entryTruthy = true :=
      List.all_eq_true.mpr hentries
    have hne' : generate_gap_items "[Silence]" 1 gaps ≠ [] := by
      intro h
      apply hne
      have hl := congrArg List.length h
      rw [hlen] at hl
      exact List.length_eq_zero.mp hl
    simp [validate_srt_content, hpos, hall, hne']
  have hok : reparse_marker_track (generate_gap_items "[Silence]" 1 gaps)
      = .ok ((generate_gap_items "[Silence]" 1 gaps).map fun it =>
        ({ start := it.start.ordinal, «end» := it.«end».ordinal,
           text := it.text } : SubEntry)) := by
    simp [reparse_marker_track, load_parsed, hcontent]
  show C2Prop gaps
  unfold C2Prop
  rw [hok]
  refine ⟨by rw [List.length_map, hlen], ?_, ?_⟩
  · rw [List.map_map]
    exact generate_gap_items_starts "[Silence]" gaps 1 fun g hg => (hms g hg).2.1
  · rw [List.map_map]
    exact generate_gap_items_ends "[Silence]" gaps 1 fun g hg => (hms g hg).2.2.2

/-- **C2 witness.**  The detector-produced gap of spec Scenario A. -/
theorem C2_round_trip_witness :
    C2Prop [⟨2000000, 5000000, 3000000, "a", "b"⟩] :=
  C2_round_trip _ (by decide) (by decide)

lemma mem_summary_details :
    ∀ (gaps : List Gap) (i : Nat) (g : Gap), g ∈ gaps →
      ("Duration: " ++ format_timedelta g.duration) ∈ summary_details i gaps := by
  intro gaps
  induction gaps with
  | nil => intro i g h; simp at h
  | cons g0 gs ih =>
    intro i g h
    rcases List.mem_cons.mp h with rfl | hmem
    · simp [summary_details]
    · simp only [summary_details, List.append_assoc]
      refine List.mem_append_right _ ?_
      exact ih (i + 1) g hmem

/-- **C8.** Every duration in the summary is rendered through
`_format_timedelta`, whose output is `HH:MM:SS.mmm`: zero-padded hour,
minute (`< 60`), second (`< 60`) and millisecond (`< 1000`) fields, the
milliseconds being the total integer millisecond count truncated
(Euclidean `us / 1000`, i.e. the floor of the true value) modulo 1000 —
not rounded. -/
theorem C8_duration_format : C8Prop := by
  refine ⟨?_, ?_, ?_⟩
  · intro gaps stats det
    refine ⟨?_, ?_, ?_, ?_⟩ <;>
      · simp [generate_summary_lines, summary_header]
  · intro gaps stats g hg
    have hne : gaps.isEmpty = false := by
      cases gaps
      · simp at hg
      · rfl
    have hmem := mem_summary_details gaps 1 g hg
    simp [generate_summary_lines, hne, hmem]
  · intro us hus
    have em1 : Int.fmod us 3600000000 = us % 3600000000 :=
      Int.fmod_eq_emod us (by norm_num)
    have em2 : Int.fmod us 60000000 = us % 60000000 :=
      Int.fmod_eq_emod us (by norm_num)
    have em3 : Int.fmod us 1000000 = us % 1000000 :=
      Int.fmod_eq_emod us (by norm_num)
    have e1 : Int.fdiv us 3600000000 = us / 3600000000 :=
      Int.fdiv_eq_ediv us (by norm_num)
    have e2 : Int.fdiv (Int.fmod us 3600000000) 60000000 = us / 60000000 % 60 := by
      rw [em1, Int.fdiv_eq_ediv _ (by norm_num)]
      omega
    have e3 : Int.fdiv (Int.fmod us 60000000) 1000000 = us / 1000000 % 60 := by
      rw [em2, Int.fdiv_eq_ediv _ (by norm_num)]
      omega
    have e4 : Int.fdiv (Int.fmod us 1000000) 1000 = us / 1000 % 1000 := by
      rw [em3, Int.fdiv_eq_ediv _ (by norm_num)]
      omega
    refine ⟨?_, by omega, by omega, by omega, by omega, by omega, by omega, by omega⟩
    rw [format_timedelta, e1, e2, e3, e4]

/-- **C8 witness.**  A duration of 3661.9999 s truncates to `.999`. -/
theorem C8_duration_format_witness :
    (0 : Int) ≤ 3661999900
    ∧ format_timedelta 3661999900 = "01:01:01.999"
    ∧ format_timedelta 3661999900
        = pad2 ((3661999900 : Int) / 3600000000) ++ ":"
          ++ pad2 ((3661999900 : Int) / 60000000 % 60) ++ ":"
          ++ pad2 ((3661999900 : Int) / 1000000 % 60) ++ "."
          ++ pad3 ((3661999900 : Int) / 1000 % 1000) :=
  ⟨by norm_num, by decide, (C8_duration_format.2.2 3661999900 (by norm_num)).1⟩

/-- **C5 counterexample.**  The plain-ASCII byte `A` with no byte-order
mark and a confident chardet answer: the claim predicts the chardet result
`("ascii", 0.99)` but the code returns `("utf-8-sig", 1.0)`; and for the
undecodable byte `FF` with a confident `"Windows-1252"` answer the code
lowercases the name, so the result is not the verbatim detector result. -/
theorem C5_claimed_spec_fails :
    detect_file_encoding [(0x41 : Fin 256)] ⟨some "ascii", mkRat 99 100⟩
        ≠ detectSpecClaimed [(0x41 : Fin 256)] ⟨some "ascii", mkRat 99 100⟩
    ∧ detect_file_encoding [(0xFF : Fin 256)] ⟨some "Windows-1252", mkRat 9 10⟩
        ≠ detectSpecClaimed [(0xFF : Fin 256)] ⟨some "Windows-1252", mkRat 9 10⟩ := by
  decide

/-- **C5 (amended).**  Encoding detection is total and equals the amended
precedence: `utf-8-sig` (confidence 1.0) for anything the `utf-8-sig`
codec decodes, BOM or not; otherwise a truthy chardet result with
confidence ≥ 0.8, name lowercased, confidence unchanged; otherwise the
first successful probe with confidence 1.0 (always `iso-8859-1` here,
since the earlier probes repeat the failed UTF-8 decodes); the
`cp1252`/0.5 fallback clause is never reached. -/
theorem C5_detection_precedence (b : List Byte) (det : ChardetResult) :
    detect_file_encoding b det = detectSpecAmended b det := by
  by_cases hs : validUtf8 (stripBom b)
  · simp [detect_file_encoding, detectSpecAmended, hs]
  · have hsf : validUtf8 (stripBom b) = false := by simpa using hs
    by_cases ht : encodingTruthy det.encoding
    · by_cases hc : det.confidence < mkRat 4 5
      · rw [detect_low_path b det hsf (Or.inr hc)]
        simp only [detectSpecAmended, hsf, Bool.false_eq_true, if_false]
        rw [if_neg fun hcond => absurd hcond.2 (not_le.mpr hc),
          probeFirst_of_not_utf8sig b hsf]
      · rw [detect_high_path b det hsf ht hc]
        simp only [detectSpecAmended, hsf, Bool.false_eq_true, if_false]
        rw [if_pos ⟨ht, le_of_not_lt hc⟩]
    · rw [detect_low_path b det hsf (Or.inl ht)]
      simp only [detectSpecAmended, hsf, Bool.false_eq_true, if_false]
      rw [if_neg fun hcond => ht hcond.1, probeFirst_of_not_utf8sig b hsf]

/-- **C10 counterexample.**  The claim's parenthetical is wrong about
Windows-1252: Python's `cp1252` codec has no mapping for byte `0x81`
(likewise `0x8D`, `0x8F`, `0x90`, `0x9D`), so it does not decode every
byte sequence. -/
theorem C10_cp1252_gap : decodesWith "cp1252" [(0x81 : Fin 256)] = false := by
  decide

/-- **C10 (amended).**  The probe loop always returns (its `iso-8859-1`
entry decodes every byte sequence — `cp1252` need not); whenever chardet's
result is falsy or below 0.8 the probe's answer `("iso-8859-1", 1.0)` is
returned; and detection never returns confidence 0.5, so the final
`cp1252`/0.5 fallback branch is unreachable. -/
theorem C10_fallback_unreachable (b : List Byte) (det : ChardetResult) :
    C10Prop b det := by
  refine ⟨probeFirst_isSome b, fun hs hl => detect_low_path b det hs hl, ?_⟩
  by_cases hs : validUtf8 (stripBom b)
  · have : detect_file_encoding b det = ("utf-8-sig", 1) := by
      simp [detect_file_encoding, hs]
    rw [this]
    decide
  · have hsf : validUtf8 (stripBom b) = false := by simpa using hs
    by_cases ht : encodingTruthy det.encoding
    · by_cases hc : det.confidence < mkRat 4 5
      · rw [detect_low_path b det hsf (Or.inr hc)]
        decide
      · rw [detect_high_path b det hsf ht hc]
        show det.confidence ≠ mkRat 1 2
        intro h
        rw [h] at hc
        exact hc (by decide)
    · rw [detect_low_path b det hsf (Or.inl ht)]
      decide

/-- **C10 witness.**  A single undecodable byte with a failed chardet
detection: the probe path fires and returns `iso-8859-1`. -/
theorem C10_fallback_unreachable_witness :
    C10Prop [(0xFF : Fin 256)] ⟨none, 0⟩
    ∧ detect_file_encoding [(0xFF : Fin 256)] ⟨none, 0⟩ = ("iso-8859-1", 1) :=
  ⟨C10_fallback_unreachable _ _,
    (C10_fallback_unreachable [(0xFF : Fin 256)] ⟨none, 0⟩).2.1 (by decide)
      (Or.inl (by decide))⟩
